import Mathlib

/-!
# FadeForge — verification of the gradient-mask compositor

Shallow embedding of the FadeForge repository's core: the canvas gradient
compositing performed by `CanvasWorkspace` (src/unnamed/part_000), the
gradient parameter record (src/types.ts) and the export-filename derivation
(src/App.tsx, `handleDownload`).

The component paints the source image, then fills a four-stop
linear/radial canvas gradient with `globalCompositeOperation =
'destination-in'`, which keeps the destination (image) colour and
multiplies its alpha by the gradient's alpha.  The gradient stop list and
the axis geometry are translated directly from the source; the per-pixel
evaluation of a canvas gradient (piecewise-linear interpolation between
colour stops, clamped to the end stops outside the axis) and the
`destination-in` alpha product follow the canvas semantics the source
delegates to, as restated in the spec (§4.1 step 4: RGB unchanged,
`A = source.A * factor(t)`, round to nearest, clamp to [0,255]).
-/

namespace FadeForge

/-- Evaluation of a canvas gradient's alpha along its axis parameter, for a
stop list given in non-decreasing offset order (as the source adds them).
Before the first stop the first stop's value holds, after the last the
last value; between two consecutive stops the value interpolates linearly.
Two stops sharing an offset make a hard jump there; at the shared offset
itself the earlier stop's value applies (the rendered image samples pixel
centres, so this measure-zero boundary choice is not observable). -/
def evalStops {α : Type} [LinearOrderedField α] : List (α × α) → α → α
  | [], _ => 0
  | [(_, a)], _ => a
  | (o₁, a₁) :: (o₂, a₂) :: rest, t =>
    if t ≤ o₁ then a₁
    else if t < o₂ then a₁ + (a₂ - a₁) * (t - o₁) / (o₂ - o₁)
    else evalStops ((o₂, a₂) :: rest) t

/-- `Math.max(0, Math.min(1, x))`, the clamp applied to `start` and `end`
(src/unnamed/part_000, lines 93–94). -/
def clamp01 {α : Type} [LinearOrderedField α] (x : α) : α := max 0 (min 1 x)

/-- The four `addColorStop` calls (src/unnamed/part_000, lines 97–107),
keeping only each stop's alpha (the mask's RGB is irrelevant under
`destination-in`): offsets `0`, `min safeStart safeEnd`,
`max safeStart safeEnd`, `1`, where `safeStart`/`safeEnd` clamp
`startPoint/100` and `endPoint/100` to [0,1] (lines 89–94). -/
def stopList (startPoint endPoint : ℚ) (invert : Bool) : List (ℚ × ℚ) :=
  let safeStart := clamp01 (startPoint / 100)
  let safeEnd := clamp01 (endPoint / 100)
  match invert with
  | true => [(0, 0), (min safeStart safeEnd, 0), (max safeStart safeEnd, 1), (1, 1)]
  | false => [(0, 1), (min safeStart safeEnd, 1), (max safeStart safeEnd, 0), (1, 0)]

/-- The stop offsets handed to `addColorStop`, in call order. -/
def stopOffsets (startPoint endPoint : ℚ) (invert : Bool) : List ℚ :=
  (stopList startPoint endPoint invert).map Prod.fst

/-- The lower normalized fade bound `lo = min(safeStart, safeEnd)`. -/
def loBound (startPoint endPoint : ℚ) : ℚ :=
  min (clamp01 (startPoint / 100)) (clamp01 (endPoint / 100))

/-- The upper normalized fade bound `hi = max(safeStart, safeEnd)`. -/
def hiBound (startPoint endPoint : ℚ) : ℚ :=
  max (clamp01 (startPoint / 100)) (clamp01 (endPoint / 100))

/-- `settings.type` (src/types.ts: `'linear' | 'radial'`). -/
inductive GradType : Type
  | linear : GradType
  | radial : GradType
deriving DecidableEq

/-- `GradientSettings` (src/types.ts).  The angle feeds trigonometry and is
kept real; the fade percentages feed only rational stop arithmetic. -/
structure GradientSettings : Type where
  angle : ℝ
  startPoint : ℚ
  endPoint : ℚ
  invert : Bool
  type : GradType

/-- One 8-bit RGBA pixel (spec §3: 8-bit channels). -/
structure Pixel : Type where
  r : Fin 256
  g : Fin 256
  b : Fin 256
  a : Fin 256
deriving DecidableEq

/-- A bitmap: dimensions plus a pixel grid, represented as a total
function on integer pixel coordinates (spec §3). -/
structure Bitmap : Type where
  width : ℕ
  height : ℕ
  pix : ℕ → ℕ → Pixel

/-- The diagonal used for the linear axis:
`Math.sqrt(w*w + h*h)` (src/unnamed/part_000, line 71). -/
noncomputable def diagonal (w h : ℝ) : ℝ := Real.sqrt (w * w + h * h)

/-- The radial gradient's outer radius:
`Math.max(canvas.width, canvas.height) / 2` (src/unnamed/part_000, line 84). -/
noncomputable def rRadial (w h : ℝ) : ℝ := max w h / 2

/-- Axis parameter of the linear gradient at point `(px, py)`.  The segment
endpoints are translated from src/unnamed/part_000, lines 58–79:
`rad = (angle - 90) * (π/180)`, centre `(w/2, h/2)`, endpoints
`centre ± (cos rad, sin rad) * (diagonal/2)`.  A canvas linear gradient
parameterises a point by its orthogonal projection onto the directed
segment from `(x0, y0)` to `(x1, y1)`. -/
noncomputable def tLinear (w h angle px py : ℝ) : ℝ :=
  let rad := (angle - 90) * (Real.pi / 180)
  let cx := w / 2
  let cy := h / 2
  let x1 := cx + Real.cos rad * (diagonal w h / 2)
  let y1 := cy + Real.sin rad * (diagonal w h / 2)
  let x0 := cx - Real.cos rad * (diagonal w h / 2)
  let y0 := cy - Real.sin rad * (diagonal w h / 2)
  ((px - x0) * (x1 - x0) + (py - y0) * (y1 - y0)) /
    ((x1 - x0) * (x1 - x0) + (y1 - y0) * (y1 - y0))

/-- Axis parameter of the radial gradient at `(px, py)`: with inner radius
0 (src/unnamed/part_000, line 85: `createRadialGradient(cx, cy, 0, cx, cy, r)`),
a canvas radial gradient parameterises a point by
(distance from centre) / r. -/
noncomputable def tRadial (w h px py : ℝ) : ℝ :=
  Real.sqrt ((px - w / 2) * (px - w / 2) + (py - h / 2) * (py - h / 2)) /
    rRadial w h

/-- Axis parameter of the pixel at grid position `(x, y)`; the canvas
rasteriser samples the pixel's centre `(x + 1/2, y + 1/2)`. -/
noncomputable def tAt (s : GradientSettings) (w h : ℕ) (x y : ℕ) : ℝ :=
  match s.type with
  | GradType.linear => tLinear w h s.angle (x + 1 / 2) (y + 1 / 2)
  | GradType.radial => tRadial w h (x + 1 / 2) (y + 1 / 2)

/-- The source's stop list, coerced to real offsets and alphas. -/
def stopListR (startPoint endPoint : ℚ) (invert : Bool) : List (ℝ × ℝ) :=
  (stopList startPoint endPoint invert).map fun p => ((p.1 : ℝ), (p.2 : ℝ))

/-- The gradient-mask alpha factor at pixel `(x, y)`. -/
noncomputable def factorAt (s : GradientSettings) (w h : ℕ) (x y : ℕ) : ℝ :=
  evalStops (stopListR s.startPoint s.endPoint s.invert) (tAt s w h x y)

/-- 8-bit output alpha of `destination-in`: the source alpha times the
mask factor, rounded to nearest and clamped to [0, 255]
(spec §4.1 step 4, the semantics the canvas call delegates to). -/
noncomputable def outAlpha (a : Fin 256) (f : ℝ) : Fin 256 :=
  ⟨(min 255 (max 0 ⌊(a.val : ℝ) * f + 1 / 2⌋)).toNat,
    Nat.lt_succ_of_le (Int.toNat_le.mpr (min_le_left _ _))⟩

/-- The compositor: keep RGB, multiply alpha by the gradient factor
(src/unnamed/part_000, lines 44–115: draw the image, then fill the
gradient with `globalCompositeOperation = 'destination-in'`). -/
noncomputable def composite (bm : Bitmap) (s : GradientSettings) : Bitmap :=
  { width := bm.width
    height := bm.height
    pix := fun x y =>
      let p := bm.pix x y
      { r := p.r, g := p.g, b := p.b
        a := outAlpha p.a (factorAt s bm.width bm.height x y) } }

/-- Compositing error taxonomy.  Modelled from the spec: §7's
`InvalidDimensions` has no counterpart under src/ (the canvas component
never checks dimensions); the spec's Mask Compositor contract (§4.1)
rejects zero-area bitmaps with this error and otherwise succeeds. -/
inductive CompositeError : Type
  | invalidDimensions : CompositeError
deriving DecidableEq

/-- Modelled from the spec: the validating entry point of §4.1/§7 — a
zero-area bitmap (width or height ≤ 0) is rejected with
`InvalidDimensions`; every other input succeeds, out-of-range numeric
parameters being clamped inside `composite`, never rejected. -/
noncomputable def compositeChecked (bm : Bitmap) (s : GradientSettings) :
    Except CompositeError Bitmap :=
  if bm.width = 0 ∨ bm.height = 0 then Except.error CompositeError.invalidDimensions
  else Except.ok (composite bm s)

/-- JavaScript `fileName.split('.')` on a filename as a character list
(src/App.tsx, line 45): splits at every `'.'`, keeping empty parts; the
result always has at least one part. -/
def splitDot : List Char → List (List Char)
  | [] => [[]]
  | c :: cs =>
    if c = '.' then [] :: splitDot cs
    else
      match splitDot cs with
      | [] => [[c]]
      | p :: ps => (c :: p) :: ps

/-- JavaScript `nameParts.join('.')` (src/App.tsx, line 49). -/
def joinDot : List (List Char) → List Char
  | [] => []
  | [p] => p
  | p :: ps => p ++ '.' :: joinDot ps

/-- The export filename (src/App.tsx, lines 43–52): split on `'.'`, pop the
last part when there are at least two, re-join with `'.'`, then append
`-fade.png`. -/
def deriveDownloadName (name : List Char) : List Char :=
  let nameParts := splitDot name
  let kept := if nameParts.length > 1 then nameParts.dropLast else nameParts
  joinDot kept ++ ['-', 'f', 'a', 'd', 'e', '.', 'p', 'n', 'g']

/-- The spec's four-stop alpha-factor profile (§4.1 step 3), written from
the spec's words for comparison with the source's stop list: plateau,
linear transition on `(lo, hi)`, plateau; which plateau is which is chosen
by `invert`.  At a coinciding boundary `lo = hi` the first plateau's value
applies at the point itself, matching the stop-evaluation model. -/
def profile {α : Type} [LinearOrderedField α] (lo hi : α) (invert : Bool) (t : α) : α :=
  match invert with
  | true => if t ≤ lo then 0 else if t < hi then (t - lo) / (hi - lo) else 1
  | false => if t ≤ lo then 1 else if t < hi then (hi - t) / (hi - lo) else 0

section StopLemmas

variable {α : Type} [LinearOrderedField α]

theorem evalStops_four (lo hi a b t : α) (h0 : 0 ≤ lo) (_hlh : lo ≤ hi) (_h1 : hi ≤ 1) :
    evalStops [(0, a), (lo, a), (hi, b), (1, b)] t =
      if t ≤ lo then a else if t < hi then a + (b - a) * (t - lo) / (hi - lo) else b := by
  simp only [evalStops]
  split_ifs <;> first | rfl | linarith | ring1

theorem evalStops_profile_false (lo hi t : α)
    (h0 : 0 ≤ lo) (hlh : lo ≤ hi) (h1 : hi ≤ 1) :
    evalStops [(0, 1), (lo, 1), (hi, 0), (1, 0)] t = profile lo hi false t := by
  rw [evalStops_four lo hi 1 0 t h0 hlh h1]
  simp only [profile]
  split_ifs with hle hlt
  · rfl
  · have h₂ : (0 : α) < hi - lo := by
      have := lt_of_not_le hle
      linarith
    have hne : hi - lo ≠ 0 := ne_of_gt h₂
    field_simp
  · rfl

theorem evalStops_profile_true (lo hi t : α)
    (h0 : 0 ≤ lo) (hlh : lo ≤ hi) (h1 : hi ≤ 1) :
    evalStops [(0, 0), (lo, 0), (hi, 1), (1, 1)] t = profile lo hi true t := by
  rw [evalStops_four lo hi 0 1 t h0 hlh h1]
  simp only [profile]
  split_ifs with hle hlt
  · rfl
  · ring1
  · rfl

theorem profile_mem (lo hi t : α) (invert : Bool) (_hlh : lo ≤ hi) :
    0 ≤ profile lo hi invert t ∧ profile lo hi invert t ≤ 1 := by
  cases invert <;> simp only [profile] <;> split_ifs with hle hlt
  all_goals try exact ⟨le_refl 0, zero_le_one⟩
  all_goals try exact ⟨zero_le_one, le_refl 1⟩
  · have h₁ : lo < t := lt_of_not_le hle
    have h₂ : (0 : α) < hi - lo := by linarith
    refine ⟨div_nonneg (by linarith) h₂.le, ?_⟩
    rw [div_le_one h₂]
    linarith
  · have h₁ : lo < t := lt_of_not_le hle
    have h₂ : (0 : α) < hi - lo := by linarith
    refine ⟨div_nonneg (by linarith) h₂.le, ?_⟩
    rw [div_le_one h₂]
    linarith

theorem profile_invert_eq (lo hi t : α) (_hlh : lo ≤ hi) :
    profile lo hi true t = 1 - profile lo hi false t := by
  simp only [profile]
  split_ifs with hle hlt
  · ring1
  · have h₁ : lo < t := lt_of_not_le hle
    have h₂ : (0 : α) < hi - lo := by linarith
    have hne : hi - lo ≠ 0 := ne_of_gt h₂
    rw [eq_sub_iff_add_eq, div_add_div_same, div_eq_one_iff_eq hne]
    ring1
  · ring1

end StopLemmas

theorem clamp01_nonneg {α : Type} [LinearOrderedField α] (x : α) : 0 ≤ clamp01 x :=
  le_max_left 0 _

theorem clamp01_le_one {α : Type} [LinearOrderedField α] (x : α) : clamp01 x ≤ 1 :=
  max_le zero_le_one (min_le_left 1 x)

theorem loBound_nonneg (sp ep : ℚ) : 0 ≤ loBound sp ep :=
  le_min (clamp01_nonneg _) (clamp01_nonneg _)

theorem loBound_le_hiBound (sp ep : ℚ) : loBound sp ep ≤ hiBound sp ep :=
  min_le_max

theorem hiBound_le_one (sp ep : ℚ) : hiBound sp ep ≤ 1 :=
  max_le (clamp01_le_one _) (clamp01_le_one _)

theorem stopList_false_eq (sp ep : ℚ) :
    stopList sp ep false = [(0, 1), (loBound sp ep, 1), (hiBound sp ep, 0), (1, 0)] := rfl

theorem stopList_true_eq (sp ep : ℚ) :
    stopList sp ep true = [(0, 0), (loBound sp ep, 0), (hiBound sp ep, 1), (1, 1)] := rfl

theorem evalStops_stopList (sp ep t : ℚ) (invert : Bool) :
    evalStops (stopList sp ep invert) t =
      profile (loBound sp ep) (hiBound sp ep) invert t := by
  cases invert
  · rw [stopList_false_eq]
    exact evalStops_profile_false _ _ t (loBound_nonneg sp ep) (loBound_le_hiBound sp ep)
      (hiBound_le_one sp ep)
  · rw [stopList_true_eq]
    exact evalStops_profile_true _ _ t (loBound_nonneg sp ep) (loBound_le_hiBound sp ep)
      (hiBound_le_one sp ep)

/-- C1 (amended): with normalized bounds `lo = loBound`, `hi = hiBound`,
the factor evaluated from the source's four stops follows the profile
selected by `invert`: not inverted it is 1 on `[0, lo]`, interpolates
`(hi - t)/(hi - lo)` on `(lo, hi)` and is 0 on `[hi, 1]`; inverted it is 0
on `[0, lo]`, interpolates `(t - lo)/(hi - lo)` and is 1 on `[hi, 1]` —
except that when `lo = hi` the single point `t = lo` of `[hi, 1]` keeps
the first plateau's value, so the last clause of each branch additionally
requires `lo < hi ∨ lo < t`. -/
theorem C1_four_stop_profile (sp ep t : ℚ) :
    (0 ≤ t → t ≤ loBound sp ep → evalStops (stopList sp ep false) t = 1) ∧
    (loBound sp ep < t → t < hiBound sp ep →
      evalStops (stopList sp ep false) t =
        (hiBound sp ep - t) / (hiBound sp ep - loBound sp ep)) ∧
    (hiBound sp ep ≤ t → t ≤ 1 → (loBound sp ep < hiBound sp ep ∨ loBound sp ep < t) →
      evalStops (stopList sp ep false) t = 0) ∧
    (0 ≤ t → t ≤ loBound sp ep → evalStops (stopList sp ep true) t = 0) ∧
    (loBound sp ep < t → t < hiBound sp ep →
      evalStops (stopList sp ep true) t =
        (t - loBound sp ep) / (hiBound sp ep - loBound sp ep)) ∧
    (hiBound sp ep ≤ t → t ≤ 1 → (loBound sp ep < hiBound sp ep ∨ loBound sp ep < t) →
      evalStops (stopList sp ep true) t = 1) := by
  rw [evalStops_stopList sp ep t false, evalStops_stopList sp ep t true]
  simp only [profile]
  refine ⟨fun h₀ h₁ => ?_, fun h₁ h₂ => ?_, fun h₁ h₂ h₃ => ?_,
    fun h₀ h₁ => ?_, fun h₁ h₂ => ?_, fun h₁ h₂ h₃ => ?_⟩
  · rw [if_pos h₁]
  · rw [if_neg (not_le.mpr h₁), if_pos h₂]
  · have hlt : loBound sp ep < t := by
      rcases h₃ with h | h
      · exact lt_of_lt_of_le h h₁
      · exact h
    rw [if_neg (not_le.mpr hlt), if_neg (not_lt.mpr h₁)]
  · rw [if_pos h₁]
  · rw [if_neg (not_le.mpr h₁), if_pos h₂]
  · have hlt : loBound sp ep < t := by
      rcases h₃ with h | h
      · exact lt_of_lt_of_le h h₁
      · exact h
    rw [if_neg (not_le.mpr hlt), if_neg (not_lt.mpr h₁)]

/-- C1 counterexample: with `fadeStart = fadeEnd = 50` the normalized
bounds coincide at 1/2, and at `t = 1/2` — a point of `[hi, 1]`, where
the claim demands factor 0 — the factor from the source's stops is 1. -/
theorem C1_counterexample :
    hiBound 50 50 ≤ (1 / 2 : ℚ) ∧ (1 / 2 : ℚ) ≤ 1 ∧
    evalStops (stopList 50 50 false) (1 / 2) = 1 ∧
    evalStops (stopList 50 50 false) (1 / 2) ≠ 0 := by
  refine ⟨?_, by norm_num, ?_, ?_⟩ <;>
    norm_num [hiBound, clamp01, stopList, loBound, evalStops]

/-- C7: when `fadeStart = fadeEnd = p` the normalized bounds coincide at
`c = clamp01 (p/100)` and the factor profile is a hard binary step at
`c`: factor 1 (inverted: 0) for `t ≤ c` and 0 (inverted: 1) beyond, with
no interpolation (and hence no division) anywhere. -/
theorem C7_hard_step (p t : ℚ) :
    evalStops (stopList p p false) t = (if t ≤ clamp01 (p / 100) then 1 else 0) ∧
    evalStops (stopList p p true) t = (if t ≤ clamp01 (p / 100) then 0 else 1) := by
  have hlo : loBound p p = clamp01 (p / 100) := min_self _
  have hhi : hiBound p p = clamp01 (p / 100) := max_self _
  rw [evalStops_stopList p p t false, evalStops_stopList p p t true, hlo, hhi]
  simp only [profile]
  constructor <;> split_ifs with h₁ h₂ <;> first | rfl | linarith

/-- C10: for every numeric `startPoint` and `endPoint` the four stop
offsets passed to `addColorStop` are `0, lo, hi, 1`, each lies in
`[0, 1]`, and the sequence is non-decreasing, so the gradient API's
stop-insertion precondition always holds. -/
theorem C10_stop_offsets_safe (sp ep : ℚ) (invert : Bool) :
    stopOffsets sp ep invert = [0, loBound sp ep, hiBound sp ep, 1] ∧
    (stopOffsets sp ep invert).Chain' (· ≤ ·) ∧
    ∀ o ∈ stopOffsets sp ep invert, 0 ≤ o ∧ o ≤ 1 := by
  have he : stopOffsets sp ep invert = [0, loBound sp ep, hiBound sp ep, 1] := by
    cases invert <;> rfl
  refine ⟨he, ?_, ?_⟩
  · rw [he]
    simp [List.chain'_cons, loBound_nonneg sp ep, loBound_le_hiBound sp ep,
      hiBound_le_one sp ep]
  · intro o ho
    rw [he] at ho
    fin_cases ho
    · exact ⟨le_refl 0, zero_le_one⟩
    · exact ⟨loBound_nonneg sp ep,
        le_trans (loBound_le_hiBound sp ep) (hiBound_le_one sp ep)⟩
    · exact ⟨le_trans (loBound_nonneg sp ep) (loBound_le_hiBound sp ep),
        hiBound_le_one sp ep⟩
    · exact ⟨zero_le_one, le_refl 1⟩

/-- C10 witness: out-of-range inputs `startPoint = 150`, `endPoint = -20`
clamp to bounds 0 and 1; the offset `hiBound 150 (-20)` is a stop offset
and lies in `[0, 1]`. -/
theorem C10_stop_offsets_safe_witness :
    0 ≤ hiBound 150 (-20) ∧ hiBound 150 (-20) ≤ 1 :=
  (C10_stop_offsets_safe 150 (-20) false).2.2 (hiBound 150 (-20))
    (by norm_num [stopOffsets, stopList, loBound, hiBound, clamp01])

/-- C1 witness: with `fadeStart = 20`, `fadeEnd = 80` the amended profile's
interpolation clause applies at `t = 1/2`. -/
theorem C1_four_stop_profile_witness :
    evalStops (stopList 20 80 false) (1 / 2) =
      (hiBound 20 80 - 1 / 2) / (hiBound 20 80 - loBound 20 80) :=
  (C1_four_stop_profile 20 80 (1 / 2)).2.1
    (by norm_num [loBound, clamp01]) (by norm_num [hiBound, clamp01])

theorem stopListR_false_eq (sp ep : ℚ) :
    stopListR sp ep false =
      [(0, 1), ((loBound sp ep : ℝ), 1), ((hiBound sp ep : ℝ), 0), (1, 0)] := by
  simp [stopListR, stopList_false_eq sp ep]

theorem stopListR_true_eq (sp ep : ℚ) :
    stopListR sp ep true =
      [(0, 0), ((loBound sp ep : ℝ), 0), ((hiBound sp ep : ℝ), 1), (1, 1)] := by
  simp [stopListR, stopList_true_eq sp ep]

theorem factorAt_eq_profile (s : GradientSettings) (w h x y : ℕ) :
    factorAt s w h x y =
      profile ((loBound s.startPoint s.endPoint : ℝ))
        ((hiBound s.startPoint s.endPoint : ℝ)) s.invert (tAt s w h x y) := by
  have h0 : (0 : ℝ) ≤ (loBound s.startPoint s.endPoint : ℝ) := by
    exact_mod_cast loBound_nonneg s.startPoint s.endPoint
  have hlh : (loBound s.startPoint s.endPoint : ℝ) ≤ (hiBound s.startPoint s.endPoint : ℝ) := by
    exact_mod_cast loBound_le_hiBound s.startPoint s.endPoint
  have h1 : (hiBound s.startPoint s.endPoint : ℝ) ≤ 1 := by
    exact_mod_cast hiBound_le_one s.startPoint s.endPoint
  unfold factorAt
  cases hs : s.invert
  · rw [stopListR_false_eq]
    exact evalStops_profile_false _ _ _ h0 hlh h1
  · rw [stopListR_true_eq]
    exact evalStops_profile_true _ _ _ h0 hlh h1

theorem factorAt_mem (s : GradientSettings) (w h x y : ℕ) :
    0 ≤ factorAt s w h x y ∧ factorAt s w h x y ≤ 1 := by
  rw [factorAt_eq_profile]
  exact profile_mem _ _ _ _ (by exact_mod_cast loBound_le_hiBound s.startPoint s.endPoint)

theorem factorAt_invert (s : GradientSettings) (w h x y : ℕ) :
    factorAt { s with invert := true } w h x y =
      1 - factorAt { s with invert := false } w h x y := by
  rw [factorAt_eq_profile, factorAt_eq_profile]
  exact profile_invert_eq _ _ _
    (by exact_mod_cast loBound_le_hiBound s.startPoint s.endPoint)

theorem outAlpha_val (a : Fin 256) (f : ℝ) (h0 : 0 ≤ f) (h1 : f ≤ 1) :
    ((outAlpha a f).val : ℤ) = ⌊(a.val : ℝ) * f + 1 / 2⌋ := by
  have hx0 : (0 : ℝ) ≤ (a.val : ℝ) * f := mul_nonneg (Nat.cast_nonneg _) h0
  have hxa : (a.val : ℝ) * f ≤ (a.val : ℝ) :=
    mul_le_of_le_one_right (Nat.cast_nonneg _) h1
  have hz0 : (0 : ℤ) ≤ ⌊(a.val : ℝ) * f + 1 / 2⌋ := Int.floor_nonneg.mpr (by linarith)
  have hza : ⌊(a.val : ℝ) * f + 1 / 2⌋ ≤ 255 := by
    have ha : (a.val : ℝ) ≤ 255 := by
      have := a.isLt
      exact_mod_cast Nat.lt_succ_iff.mp this
    have : ⌊(a.val : ℝ) * f + 1 / 2⌋ < 256 := Int.floor_lt.mpr (by push_cast; linarith)
    omega
  show ((min 255 (max 0 ⌊(a.val : ℝ) * f + 1 / 2⌋)).toNat : ℤ) = ⌊(a.val : ℝ) * f + 1 / 2⌋
  rw [max_eq_right hz0, min_eq_right hza, Int.toNat_of_nonneg hz0]

theorem outAlpha_complement_sum (a : Fin 256) (f : ℝ) (h0 : 0 ≤ f) (h1 : f ≤ 1) :
    (outAlpha a f).val + (outAlpha a (1 - f)).val = a.val ∨
    (outAlpha a f).val + (outAlpha a (1 - f)).val = a.val + 1 := by
  have e1 := outAlpha_val a f h0 h1
  have e2 := outAlpha_val a (1 - f) (by linarith) (by linarith)
  have h₃ : (a.val : ℝ) * (1 - f) + 1 / 2 =
      -((a.val : ℝ) * f + 1 / 2) + ((a.val + 1 : ℤ) : ℝ) := by
    push_cast
    ring
  rw [h₃, Int.floor_add_int, Int.floor_neg] at e2
  have hcl := Int.ceil_le_floor_add_one ((a.val : ℝ) * f + 1 / 2)
  have hfc := Int.floor_le_ceil ((a.val : ℝ) * f + 1 / 2)
  omega

theorem loBound_comm (a b : ℚ) : loBound a b = loBound b a := min_comm _ _

theorem hiBound_comm (a b : ℚ) : hiBound a b = hiBound b a := max_comm _ _

theorem outAlpha_zeroA (f : ℝ) : (outAlpha 0 f).val = 0 := by
  show (min 255 (max 0 ⌊((0 : ℕ) : ℝ) * f + 1 / 2⌋)).toNat = 0
  norm_num

/-- C2: for every bitmap and every parameter record, `composite` keeps the
width, the height and every pixel's R, G and B channels exactly; only the
alpha channel is recomputed. -/
theorem C2_dims_and_rgb_preserved (bm : Bitmap) (s : GradientSettings) :
    (composite bm s).width = bm.width ∧
    (composite bm s).height = bm.height ∧
    ∀ x y : ℕ,
      ((composite bm s).pix x y).r = (bm.pix x y).r ∧
      ((composite bm s).pix x y).g = (bm.pix x y).g ∧
      ((composite bm s).pix x y).b = (bm.pix x y).b :=
  ⟨rfl, rfl, fun _ _ => ⟨rfl, rfl, rfl⟩⟩

/-- C4: `composite` with `fadeStart = a, fadeEnd = b` equals `composite`
with `fadeStart = b, fadeEnd = a`: after independent clamping the pair
only enters through `min` and `max`. -/
theorem C4_swap_fade_points (bm : Bitmap) (angle : ℝ) (a b : ℚ)
    (invert : Bool) (ty : GradType) :
    composite bm ⟨angle, a, b, invert, ty⟩ = composite bm ⟨angle, b, a, invert, ty⟩ := by
  have hf : ∀ w h x y : ℕ,
      factorAt ⟨angle, a, b, invert, ty⟩ w h x y =
        factorAt ⟨angle, b, a, invert, ty⟩ w h x y := by
    intro w h x y
    rw [factorAt_eq_profile, factorAt_eq_profile]
    show profile ((loBound a b : ℝ)) ((hiBound a b : ℝ)) invert _ =
      profile ((loBound b a : ℝ)) ((hiBound b a : ℝ)) invert _
    rw [loBound_comm, hiBound_comm]
    rfl
  unfold composite
  simp only [hf]

/-- C3 (amended): all else equal, the `invert = true` and `invert = false`
output alphas of a pixel sum to the pixel's source alpha — or to source
alpha + 1 when `source.A × factor` is exactly a rounding tie — so they are
complementary about the source alpha, not about 255. -/
theorem C3_invert_alpha_complement (bm : Bitmap) (s : GradientSettings) (x y : ℕ) :
    ((composite bm { s with invert := true }).pix x y).a.val +
        ((composite bm { s with invert := false }).pix x y).a.val =
      ((bm.pix x y).a).val ∨
    ((composite bm { s with invert := true }).pix x y).a.val +
        ((composite bm { s with invert := false }).pix x y).a.val =
      ((bm.pix x y).a).val + 1 := by
  have hmem := factorAt_mem { s with invert := false } bm.width bm.height x y
  have hinv := factorAt_invert s bm.width bm.height x y
  have hsum := outAlpha_complement_sum (bm.pix x y).a
    (factorAt { s with invert := false } bm.width bm.height x y) hmem.1 hmem.2
  have ea : ∀ inv : Bool,
      ((composite bm { s with invert := inv }).pix x y).a =
        outAlpha (bm.pix x y).a (factorAt { s with invert := inv } bm.width bm.height x y) :=
    fun _ => rfl
  rw [ea true, ea false, hinv]
  rcases hsum with h | h
  · left
    omega
  · right
    omega

/-- C3 counterexample: a fully transparent source pixel (alpha 0) stays at
alpha 0 under both invert settings, and 0 ≠ 255 − 0. -/
theorem C3_counterexample :
    ((composite ⟨1, 1, fun _ _ => ⟨0, 0, 0, 0⟩⟩
        ⟨180, 20, 80, true, GradType.radial⟩).pix 0 0).a.val = 0 ∧
    ((composite ⟨1, 1, fun _ _ => ⟨0, 0, 0, 0⟩⟩
        ⟨180, 20, 80, false, GradType.radial⟩).pix 0 0).a.val = 0 ∧
    ¬(((composite ⟨1, 1, fun _ _ => ⟨0, 0, 0, 0⟩⟩
        ⟨180, 20, 80, true, GradType.radial⟩).pix 0 0).a.val =
      255 - ((composite ⟨1, 1, fun _ _ => ⟨0, 0, 0, 0⟩⟩
        ⟨180, 20, 80, false, GradType.radial⟩).pix 0 0).a.val) := by
  have h1 : ((composite ⟨1, 1, fun _ _ => ⟨0, 0, 0, 0⟩⟩
      ⟨180, 20, 80, true, GradType.radial⟩).pix 0 0).a.val = 0 := outAlpha_zeroA _
  have h2 : ((composite ⟨1, 1, fun _ _ => ⟨0, 0, 0, 0⟩⟩
      ⟨180, 20, 80, false, GradType.radial⟩).pix 0 0).a.val = 0 := outAlpha_zeroA _
  exact ⟨h1, h2, by rw [h1, h2]; norm_num⟩

/-- C5 (spec-modelled): the validating compositor rejects a zero-area
bitmap with `InvalidDimensions` and succeeds on every bitmap of positive
width and height, whatever the numeric parameter values — out-of-range
values are clamped inside `composite`, never rejected. -/
theorem C5_zero_area_rejected (bm : Bitmap) (s : GradientSettings) :
    (bm.width ≤ 0 ∨ bm.height ≤ 0 →
      compositeChecked bm s = Except.error CompositeError.invalidDimensions) ∧
    (0 < bm.width → 0 < bm.height →
      compositeChecked bm s = Except.ok (composite bm s)) := by
  constructor
  · intro h
    have hc : bm.width = 0 ∨ bm.height = 0 := by omega
    unfold compositeChecked
    rw [if_pos hc]
  · intro hw hh
    have hc : ¬(bm.width = 0 ∨ bm.height = 0) := by omega
    unfold compositeChecked
    rw [if_neg hc]

/-- C5 witness: a 0×0 bitmap is rejected with `InvalidDimensions`; a 1×1
bitmap succeeds even with out-of-range parameters (fade 120 and −5). -/
theorem C5_zero_area_rejected_witness :
    compositeChecked ⟨0, 0, fun _ _ => ⟨0, 0, 0, 0⟩⟩
        ⟨45, 120, -5, false, GradType.linear⟩ =
      Except.error CompositeError.invalidDimensions ∧
    compositeChecked ⟨1, 1, fun _ _ => ⟨0, 0, 0, 255⟩⟩
        ⟨45, 120, -5, false, GradType.linear⟩ =
      Except.ok (composite ⟨1, 1, fun _ _ => ⟨0, 0, 0, 255⟩⟩
        ⟨45, 120, -5, false, GradType.linear⟩) :=
  ⟨(C5_zero_area_rejected _ _).1 (Or.inl (le_refl 0)),
   (C5_zero_area_rejected _ _).2 (by norm_num) (by norm_num)⟩

theorem diagonal_pos (w h : ℝ) (hw : 0 < w) (_hh : 0 < h) : 0 < diagonal w h :=
  Real.sqrt_pos.mpr (by nlinarith)

theorem height_le_diagonal (w h : ℝ) (hw : 0 < w) (_hh : 0 ≤ h) :
    h ≤ diagonal w h := by
  have h₁ : 0 ≤ w * w + h * h := by nlinarith
  have h₂ := Real.sq_sqrt h₁
  have h₃ := Real.sqrt_nonneg (w * w + h * h)
  unfold diagonal
  nlinarith [sq_nonneg (Real.sqrt (w * w + h * h) - h)]

theorem proj_vertical (cx cy d px py : ℝ) (hd : d ≠ 0) :
    ((px - (cx - 0 * (d / 2))) * ((cx + 0 * (d / 2)) - (cx - 0 * (d / 2))) +
      (py - (cy - 1 * (d / 2))) * ((cy + 1 * (d / 2)) - (cy - 1 * (d / 2)))) /
    (((cx + 0 * (d / 2)) - (cx - 0 * (d / 2))) * ((cx + 0 * (d / 2)) - (cx - 0 * (d / 2))) +
      ((cy + 1 * (d / 2)) - (cy - 1 * (d / 2))) * ((cy + 1 * (d / 2)) - (cy - 1 * (d / 2)))) =
    (py - (cy - d / 2)) / d := by
  have h₁ : ((px - (cx - 0 * (d / 2))) * ((cx + 0 * (d / 2)) - (cx - 0 * (d / 2))) +
      (py - (cy - 1 * (d / 2))) * ((cy + 1 * (d / 2)) - (cy - 1 * (d / 2)))) =
      (py - (cy - d / 2)) * d := by ring
  have h₂ : (((cx + 0 * (d / 2)) - (cx - 0 * (d / 2))) * ((cx + 0 * (d / 2)) - (cx - 0 * (d / 2))) +
      ((cy + 1 * (d / 2)) - (cy - 1 * (d / 2))) * ((cy + 1 * (d / 2)) - (cy - 1 * (d / 2)))) =
      d * d := by ring
  rw [h₁, h₂, div_eq_div_iff (mul_ne_zero hd hd) hd]
  ring

theorem tLinear_angle180 (w h px py : ℝ) (hw : 0 < w) (hh : 0 < h) :
    tLinear w h 180 px py = (py - (h / 2 - diagonal w h / 2)) / diagonal w h := by
  have hd : diagonal w h ≠ 0 := ne_of_gt (diagonal_pos w h hw hh)
  simp only [tLinear]
  rw [show ((180 : ℝ) - 90) * (Real.pi / 180) = Real.pi / 2 by ring,
    Real.cos_pi_div_two, Real.sin_pi_div_two]
  exact proj_vertical (w / 2) (h / 2) (diagonal w h) px py hd

theorem tAt_angle180 (w h x y : ℕ) (hw : 0 < w) (hh : 0 < h) :
    tAt ⟨180, 0, 100, false, GradType.linear⟩ w h x y =
      ((y : ℝ) + 1 / 2 - ((h : ℝ) / 2 - diagonal w h / 2)) / diagonal w h := by
  have hw' : (0 : ℝ) < w := by exact_mod_cast hw
  have hh' : (0 : ℝ) < h := by exact_mod_cast hh
  show tLinear w h 180 ((x : ℝ) + 1 / 2) ((y : ℝ) + 1 / 2) = _
  rw [tLinear_angle180 (w : ℝ) (h : ℝ) _ _ hw' hh']

theorem factorAt_angle180 (w h x y : ℕ) (hw : 0 < w) (hh : 0 < h) (hy : y < h) :
    factorAt ⟨180, 0, 100, false, GradType.linear⟩ w h x y =
      1 - tAt ⟨180, 0, 100, false, GradType.linear⟩ w h x y := by
  have hw' : (0 : ℝ) < w := by exact_mod_cast hw
  have hh' : (0 : ℝ) < h := by exact_mod_cast hh
  have hd := diagonal_pos (w : ℝ) (h : ℝ) hw' hh'
  have hdh := height_le_diagonal (w : ℝ) (h : ℝ) hw' hh'.le
  have ht := tAt_angle180 w h x y hw hh
  have hy' : (y : ℝ) ≤ (h : ℝ) - 1 := by
    have h₁ : (y : ℝ) + 1 ≤ (h : ℝ) := by exact_mod_cast Nat.succ_le_of_lt hy
    linarith
  have hy0 : (0 : ℝ) ≤ (y : ℝ) := Nat.cast_nonneg y
  have h0t : 0 ≤ tAt ⟨180, 0, 100, false, GradType.linear⟩ w h x y := by
    rw [ht]
    apply div_nonneg _ hd.le
    linarith
  have ht1 : tAt ⟨180, 0, 100, false, GradType.linear⟩ w h x y ≤ 1 := by
    rw [ht, div_le_one hd]
    linarith
  rw [factorAt_eq_profile]
  show profile ((loBound 0 100 : ℝ)) ((hiBound 0 100 : ℝ)) false
      (tAt ⟨180, 0, 100, false, GradType.linear⟩ w h x y) =
    1 - tAt ⟨180, 0, 100, false, GradType.linear⟩ w h x y
  have hlo : loBound 0 100 = 0 := by norm_num [loBound, clamp01]
  have hhi : hiBound 0 100 = 1 := by norm_num [hiBound, clamp01]
  rw [hlo, hhi, Rat.cast_zero, Rat.cast_one]
  simp only [profile]
  split_ifs with ha hb
  · linarith
  · norm_num
  · linarith

theorem factorAt_top_row (w h : ℕ) (hw : 0 < w) (hh : 0 < h) (x : ℕ) :
    factorAt ⟨180, 0, 100, false, GradType.linear⟩ w h x 0 =
      (diagonal w h + h - 1) / (2 * diagonal w h) := by
  have hw' : (0 : ℝ) < w := by exact_mod_cast hw
  have hh' : (0 : ℝ) < h := by exact_mod_cast hh
  have hne : diagonal (w : ℝ) (h : ℝ) ≠ 0 := ne_of_gt (diagonal_pos _ _ hw' hh')
  rw [factorAt_angle180 w h x 0 hw hh hh, tAt_angle180 w h x 0 hw hh, Nat.cast_zero]
  field_simp
  ring

theorem factorAt_bottom_row (w h : ℕ) (hw : 0 < w) (hh : 0 < h) (x : ℕ) :
    factorAt ⟨180, 0, 100, false, GradType.linear⟩ w h x (h - 1) =
      (diagonal w h - h + 1) / (2 * diagonal w h) := by
  have hw' : (0 : ℝ) < w := by exact_mod_cast hw
  have hh' : (0 : ℝ) < h := by exact_mod_cast hh
  have hne : diagonal (w : ℝ) (h : ℝ) ≠ 0 := ne_of_gt (diagonal_pos _ _ hw' hh')
  have hcast : ((h - 1 : ℕ) : ℝ) = (h : ℝ) - 1 := by
    exact_mod_cast Nat.cast_sub hh
  rw [factorAt_angle180 w h x (h - 1) hw hh (Nat.sub_lt hh one_pos),
    tAt_angle180 w h x (h - 1) hw hh, hcast]
  field_simp
  ring

/-- C6 (amended): with `angleDegrees = 180`, `fadeStart = 0`,
`fadeEnd = 100`, `invert = false` on a w×h bitmap (w, h ≥ 1): the linear
axis built from `(angle − 90)°` in radians, the centre and half-diagonal
endpoints is vertical — the pixel parameter is
`((y + 1/2) − (h/2 − diag/2)) / diag`, independent of x — and the alpha
factor equals `1 − t` on every row and is non-increasing down the
vertical axis.  Because the axis spans the full diagonal, the top row's
factor is exactly `(diag + h − 1)/(2·diag)` and the bottom row's
`(diag − h + 1)/(2·diag)`: complementary about 1/2 with the top the
larger, approaching 1 and 0 only when the bitmap is tall (h ≫ w) — not
approximately 1 and 0 in general. -/
theorem C6_linear_angle180 (w h : ℕ) (hw : 0 < w) (hh : 0 < h) :
    (∀ x y : ℕ, tAt ⟨180, 0, 100, false, GradType.linear⟩ w h x y =
      ((y : ℝ) + 1 / 2 - ((h : ℝ) / 2 - diagonal w h / 2)) / diagonal w h) ∧
    (∀ x y : ℕ, y < h →
      factorAt ⟨180, 0, 100, false, GradType.linear⟩ w h x y =
        1 - tAt ⟨180, 0, 100, false, GradType.linear⟩ w h x y) ∧
    (∀ x x' y : ℕ, factorAt ⟨180, 0, 100, false, GradType.linear⟩ w h x y =
      factorAt ⟨180, 0, 100, false, GradType.linear⟩ w h x' y) ∧
    (∀ x y y' : ℕ, y ≤ y' → y' < h →
      factorAt ⟨180, 0, 100, false, GradType.linear⟩ w h x y' ≤
        factorAt ⟨180, 0, 100, false, GradType.linear⟩ w h x y) ∧
    (∀ x : ℕ, factorAt ⟨180, 0, 100, false, GradType.linear⟩ w h x 0 +
        factorAt ⟨180, 0, 100, false, GradType.linear⟩ w h x (h - 1) = 1) ∧
    (∀ x : ℕ, factorAt ⟨180, 0, 100, false, GradType.linear⟩ w h x (h - 1) ≤
        factorAt ⟨180, 0, 100, false, GradType.linear⟩ w h x 0) ∧
    (∀ x : ℕ, factorAt ⟨180, 0, 100, false, GradType.linear⟩ w h x 0 =
      (diagonal w h + h - 1) / (2 * diagonal w h)) ∧
    (∀ x : ℕ, factorAt ⟨180, 0, 100, false, GradType.linear⟩ w h x (h - 1) =
      (diagonal w h - h + 1) / (2 * diagonal w h)) := by
  have hw' : (0 : ℝ) < w := by exact_mod_cast hw
  have hh' : (0 : ℝ) < h := by exact_mod_cast hh
  have hd := diagonal_pos (w : ℝ) (h : ℝ) hw' hh'
  have hne : diagonal (w : ℝ) (h : ℝ) ≠ 0 := ne_of_gt hd
  have ht : ∀ x y : ℕ, tAt ⟨180, 0, 100, false, GradType.linear⟩ w h x y =
      ((y : ℝ) + 1 / 2 - ((h : ℝ) / 2 - diagonal w h / 2)) / diagonal w h :=
    fun x y => tAt_angle180 w h x y hw hh
  have hfac : ∀ x y : ℕ, y < h →
      factorAt ⟨180, 0, 100, false, GradType.linear⟩ w h x y =
        1 - tAt ⟨180, 0, 100, false, GradType.linear⟩ w h x y :=
    fun x y hy => factorAt_angle180 w h x y hw hh hy
  have hindep : ∀ x x' y : ℕ,
      factorAt ⟨180, 0, 100, false, GradType.linear⟩ w h x y =
        factorAt ⟨180, 0, 100, false, GradType.linear⟩ w h x' y := by
    intro x x' y
    rw [factorAt_eq_profile, factorAt_eq_profile, ht x y, ht x' y]
  have hmono : ∀ x y y' : ℕ, y ≤ y' → y' < h →
      factorAt ⟨180, 0, 100, false, GradType.linear⟩ w h x y' ≤
        factorAt ⟨180, 0, 100, false, GradType.linear⟩ w h x y := by
    intro x y y' hyy hy'
    have hy : y < h := lt_of_le_of_lt hyy hy'
    rw [hfac x y hy, hfac x y' hy', ht x y, ht x y']
    have hcast : (y : ℝ) ≤ (y' : ℝ) := Nat.cast_le.mpr hyy
    have hdiv : ((y : ℝ) + 1 / 2 - ((h : ℝ) / 2 - diagonal w h / 2)) / diagonal w h ≤
        ((y' : ℝ) + 1 / 2 - ((h : ℝ) / 2 - diagonal w h / 2)) / diagonal w h := by
      rw [div_le_div_iff_of_pos_right hd]
      linarith
    linarith
  have hsum : ∀ x : ℕ, factorAt ⟨180, 0, 100, false, GradType.linear⟩ w h x 0 +
      factorAt ⟨180, 0, 100, false, GradType.linear⟩ w h x (h - 1) = 1 := by
    intro x
    rw [hfac x 0 hh, hfac x (h - 1) (Nat.sub_lt hh one_pos), ht x 0, ht x (h - 1)]
    have hcast : ((h - 1 : ℕ) : ℝ) = (h : ℝ) - 1 := by
      exact_mod_cast Nat.cast_sub hh
    rw [hcast, Nat.cast_zero]
    field_simp
    ring
  exact ⟨ht, hfac, hindep, hmono, hsum,
    fun x => hmono x 0 (h - 1) (Nat.zero_le _) (Nat.sub_lt hh one_pos),
    fun x => factorAt_top_row w h hw hh x,
    fun x => factorAt_bottom_row w h hw hh x⟩

/-- C6 witness: on a 1×1 bitmap the top and bottom row coincide and the
complementary-sum clause forces the single pixel's factor to average to
1/2. -/
theorem C6_linear_angle180_witness :
    factorAt ⟨180, 0, 100, false, GradType.linear⟩ 1 1 0 0 +
      factorAt ⟨180, 0, 100, false, GradType.linear⟩ 1 1 0 0 = 1 :=
  (C6_linear_angle180 1 1 (by norm_num) (by norm_num)).2.2.2.2.1 0

/-- C6 counterexample: on a 100×2 bitmap the top-row alpha factor is
`(diag + 1)/(2·diag)` with `diag = √10004 ≥ 50`, hence at most 0.51 — in
particular not even 0.9, so not approximately 1 as the claim states. -/
theorem C6_counterexample :
    factorAt ⟨180, 0, 100, false, GradType.linear⟩ 100 2 0 0 ≤ 51 / 100 ∧
    ¬(9 / 10 ≤ factorAt ⟨180, 0, 100, false, GradType.linear⟩ 100 2 0 0) := by
  have htop := factorAt_top_row 100 2 (by norm_num) (by norm_num) 0
  push_cast at htop
  have hd0 : (0 : ℝ) < diagonal 100 2 :=
    diagonal_pos 100 2 (by norm_num) (by norm_num)
  have hd50 : (50 : ℝ) ≤ diagonal 100 2 := by
    have h1 : Real.sqrt (50 ^ 2) ≤ Real.sqrt ((100 : ℝ) * 100 + 2 * 2) :=
      Real.sqrt_le_sqrt (by norm_num)
    rw [Real.sqrt_sq (by norm_num : (0 : ℝ) ≤ 50)] at h1
    exact h1
  have hb : (diagonal (100 : ℝ) 2 + 2 - 1) / (2 * diagonal 100 2) ≤ 51 / 100 := by
    rw [div_le_iff₀ (by linarith : (0 : ℝ) < 2 * diagonal 100 2)]
    linarith
  refine ⟨?_, ?_⟩
  · rw [htop]
    exact hb
  · intro hcon
    rw [htop] at hcon
    linarith

theorem center_proj (C S d cx cy : ℝ) (hpy : C * C + S * S = 1) (hd : d ≠ 0) :
    ((cx - (cx - C * (d / 2))) * ((cx + C * (d / 2)) - (cx - C * (d / 2))) +
      (cy - (cy - S * (d / 2))) * ((cy + S * (d / 2)) - (cy - S * (d / 2)))) /
    (((cx + C * (d / 2)) - (cx - C * (d / 2))) * ((cx + C * (d / 2)) - (cx - C * (d / 2))) +
      ((cy + S * (d / 2)) - (cy - S * (d / 2))) * ((cy + S * (d / 2)) - (cy - S * (d / 2)))) =
    1 / 2 := by
  have h₁ : ((cx - (cx - C * (d / 2))) * ((cx + C * (d / 2)) - (cx - C * (d / 2))) +
      (cy - (cy - S * (d / 2))) * ((cy + S * (d / 2)) - (cy - S * (d / 2)))) =
      (C * C + S * S) * (d * d) / 2 := by ring
  have h₂ : (((cx + C * (d / 2)) - (cx - C * (d / 2))) * ((cx + C * (d / 2)) - (cx - C * (d / 2))) +
      ((cy + S * (d / 2)) - (cy - S * (d / 2))) * ((cy + S * (d / 2)) - (cy - S * (d / 2)))) =
      (C * C + S * S) * (d * d) := by ring
  rw [h₁, h₂, hpy, one_mul]
  rw [div_eq_div_iff (mul_ne_zero hd hd) two_ne_zero]
  ring

theorem diagonal_one_one : diagonal 1 1 = Real.sqrt 2 := by
  unfold diagonal
  norm_num

theorem tLinear_center (angle : ℝ) :
    tLinear 1 1 angle (1 / 2) (1 / 2) = 1 / 2 := by
  have hd : diagonal 1 1 ≠ 0 := by
    rw [diagonal_one_one]
    positivity
  simp only [tLinear]
  exact center_proj (Real.cos ((angle - 90) * (Real.pi / 180)))
    (Real.sin ((angle - 90) * (Real.pi / 180))) (diagonal 1 1) (1 / 2) (1 / 2)
    (by rw [← Real.cos_sq_add_sin_sq ((angle - 90) * (Real.pi / 180))]; ring) hd

theorem tRadial_center_one_one : tRadial 1 1 (1 / 2) (1 / 2) = 0 := by
  unfold tRadial rRadial
  norm_num

/-- C8 counterexample: no minimum-1 guard exists in the source: for a 1×1
bitmap the radial radius `r = max(w, h) / 2` is 1/2, strictly below 1. -/
theorem C8_counterexample : rRadial 1 1 = 1 / 2 ∧ ¬(1 ≤ rRadial 1 1) := by
  unfold rRadial
  norm_num

/-- C8 (amended): the source guards neither `diagonal` nor `r` to a
minimum of 1, but no guard is needed for positive dimensions: on a 1×1
bitmap the diagonal is √2 > 0 and r = 1/2 > 0, both divisors are nonzero,
the radial axis parameter of the single pixel is t = 0 (the linear one is
t = 1/2), and `composite` returns that pixel with alpha determined by the
factor at t = 0 — no division by zero for either shape. -/
theorem C8_one_by_one_no_div_zero (p : Pixel) (sp ep : ℚ) (invert : Bool) (angle : ℝ) :
    diagonal 1 1 = Real.sqrt 2 ∧ 0 < diagonal 1 1 ∧ rRadial 1 1 = 1 / 2 ∧
    tRadial 1 1 (1 / 2) (1 / 2) = 0 ∧
    tLinear 1 1 angle (1 / 2) (1 / 2) = 1 / 2 ∧
    ((composite ⟨1, 1, fun _ _ => p⟩ ⟨angle, sp, ep, invert, GradType.radial⟩).pix 0 0).a =
      outAlpha p.a (evalStops (stopListR sp ep invert) 0) := by
  refine ⟨diagonal_one_one, ?_, ?_, tRadial_center_one_one, tLinear_center angle, ?_⟩
  · rw [diagonal_one_one]
    positivity
  · unfold rRadial
    norm_num
  · show outAlpha p.a
        (factorAt ⟨angle, sp, ep, invert, GradType.radial⟩ 1 1 0 0) =
      outAlpha p.a (evalStops (stopListR sp ep invert) 0)
    congr 1
    unfold factorAt
    congr 1
    show tRadial ((1 : ℕ) : ℝ) ((1 : ℕ) : ℝ) (((0 : ℕ) : ℝ) + 1 / 2) (((0 : ℕ) : ℝ) + 1 / 2) = 0
    push_cast
    rw [show (0 : ℝ) + 1 / 2 = 1 / 2 by ring]
    exact tRadial_center_one_one

theorem splitDot_ne_nil (l : List Char) : splitDot l ≠ [] := by
  cases l with
  | nil => exact List.cons_ne_nil _ _
  | cons c cs =>
    by_cases hc : c = '.'
    · simp only [splitDot, if_pos hc]
      exact List.cons_ne_nil _ _
    · simp only [splitDot, if_neg hc]
      cases h : splitDot cs with
      | nil => exact List.cons_ne_nil _ _
      | cons p ps => exact List.cons_ne_nil _ _

theorem joinDot_splitDot (l : List Char) : joinDot (splitDot l) = l := by
  induction l with
  | nil => rfl
  | cons c cs ih =>
    by_cases hc : c = '.'
    · subst hc
      simp only [splitDot]
      rw [if_pos trivial]
      cases h : splitDot cs with
      | nil => exact absurd h (splitDot_ne_nil cs)
      | cons p ps =>
        rw [h] at ih
        show [] ++ '.' :: joinDot (p :: ps) = '.' :: cs
        rw [List.nil_append, ih]
    · simp only [splitDot, if_neg hc]
      cases h : splitDot cs with
      | nil => exact absurd h (splitDot_ne_nil cs)
      | cons p ps =>
        rw [h] at ih
        show joinDot ((c :: p) :: ps) = c :: cs
        cases ps with
        | nil =>
          show c :: p = c :: cs
          rw [show joinDot [p] = p from rfl] at ih
          rw [ih]
        | cons q qs =>
          show (c :: p) ++ '.' :: joinDot (q :: qs) = c :: cs
          rw [show joinDot (p :: q :: qs) = p ++ '.' :: joinDot (q :: qs) from rfl] at ih
          rw [List.cons_append, ih]

theorem splitDot_no_dot (l : List Char) (h : '.' ∉ l) : splitDot l = [l] := by
  induction l with
  | nil => rfl
  | cons c cs ih =>
    have hc : c ≠ '.' := by
      intro hcEq
      exact h (by rw [hcEq]; exact List.mem_cons_self _ _)
    have hcs : '.' ∉ cs := fun hm => h (List.mem_cons_of_mem _ hm)
    simp only [splitDot, if_neg hc]
    rw [ih hcs]

theorem splitDot_append_dot (xs ys : List Char) (h : '.' ∉ ys) :
    splitDot (xs ++ '.' :: ys) = splitDot xs ++ [ys] := by
  induction xs with
  | nil =>
    rw [List.nil_append]
    simp only [splitDot, if_pos rfl]
    rw [splitDot_no_dot ys h]
    rfl
  | cons c cs ih =>
    rw [List.cons_append]
    by_cases hc : c = '.'
    · simp only [splitDot, if_pos hc, ih]
      rfl
    · simp only [splitDot, if_neg hc, ih]
      cases hcs : splitDot cs with
      | nil => exact absurd hcs (splitDot_ne_nil cs)
      | cons p ps => rfl

/-- C9: the export filename is the original with the part after the last
`'.'` stripped when a dot exists (the name is kept whole otherwise) and
`-fade.png` appended; every derived name ends in `-fade.png`. -/
theorem C9_export_filename (base ext name : List Char)
    (hext : '.' ∉ ext) (hname : '.' ∉ name) :
    deriveDownloadName (base ++ '.' :: ext) =
      base ++ ['-', 'f', 'a', 'd', 'e', '.', 'p', 'n', 'g'] ∧
    deriveDownloadName name = name ++ ['-', 'f', 'a', 'd', 'e', '.', 'p', 'n', 'g'] ∧
    ∀ l : List Char, ['-', 'f', 'a', 'd', 'e', '.', 'p', 'n', 'g'] <:+ deriveDownloadName l := by
  refine ⟨?_, ?_, ?_⟩
  · have h1 := splitDot_append_dot base ext hext
    have hlen : (splitDot base ++ [ext]).length > 1 := by
      have hpos : 0 < (splitDot base).length :=
        List.length_pos.mpr (splitDot_ne_nil base)
      rw [List.length_append]
      simp only [List.length_singleton]
      omega
    simp only [deriveDownloadName]
    rw [h1, if_pos hlen, List.dropLast_concat, joinDot_splitDot]
  · have h2 := splitDot_no_dot name hname
    simp only [deriveDownloadName]
    rw [h2, if_neg (by simp)]
    rfl
  · intro l
    exact ⟨_, rfl⟩

/-- C9 witness: `photo.jpg` exports as `photo-fade.png`. -/
theorem C9_export_filename_witness :
    deriveDownloadName ['p', 'h', 'o', 't', 'o', '.', 'j', 'p', 'g'] =
      ['p', 'h', 'o', 't', 'o', '-', 'f', 'a', 'd', 'e', '.', 'p', 'n', 'g'] :=
  (C9_export_filename ['p', 'h', 'o', 't', 'o'] ['j', 'p', 'g'] ['a']
    (by decide) (by decide)).1

end FadeForge
